import Mathlib

/-!
Shallow embedding of the Keithley 2450 I-V measurement core
(src/main.py together with src/config.py).

Numeric values carried by SCPI commands and readings are modelled as
rationals.  The transport is modelled by oracles: each instrument query
either yields a parsed value or fails (an exception in the source, or an
unparseable response - the two are observationally identical to the
caller), and each write either succeeds or raises.  A command whose
issue raises is not recorded in the issued-command trace and has no
effect on the instrument state.
-/

namespace IVSweep

/-- config.SMALL_CURRENT_THRESHOLD = 1e-12 (src/config.py, line 69). -/
def SMALL_CURRENT_THRESHOLD : ℚ := 1 / 1000000000000

/-- A resistance value: either voltage / current, or the float('inf')
sentinel produced for very small currents (src/main.py, line 172). -/
inductive Resistance where
  | finite (r : ℚ)
  | inf
deriving DecidableEq, Repr

/-- The SCPI / TSP commands issued by SMUController, abstracted over
their string rendering. -/
inductive Cmd where
  | routTermRear
  | sourFuncVolt
  | sourVoltRang (r : ℚ)
  | sourVoltIlim (l : ℚ)
  | sensFuncCurr
  | sensCurrRangAuto
  | sensCurrRang (r : ℚ)
  | sensCurrNplc
  | sourVoltReadOn
  | outpOn
  | outpOff
  | sourVolt (v : ℚ)
  | measCurr
  | sysGpibAddr (a : ℤ)
  | queryGpibAddrTSP
  | queryGpibAddrSCPI
deriving DecidableEq, Repr

/-- Whether a command changes the output-enable state of the SMU
(only OUTP ON and OUTP OFF do). -/
def Cmd.affectsOutput : Cmd → Bool
  | .outpOn => true
  | .outpOff => true
  | _ => false

/-- Output-enable state of the instrument after issuing a command. -/
def outAfter (c : Cmd) (b : Bool) : Bool :=
  match c with
  | .outpOn => true
  | .outpOff => false
  | _ => b

/-- State of an SMUController plus the connected instrument: whether
self.instrument is set, the self.measurement_running flag, the
instrument output-enable state, and the trace of issued commands. -/
structure SMUState where
  instrument : Bool
  measurement_running : Bool
  outputOn : Bool
  trace : List Cmd
deriving DecidableEq, Repr

/-- Issue one command on the instrument (a write or query that did not
raise): it is appended to the trace and updates the output state. -/
def writeCmd (s : SMUState) (c : Cmd) : SMUState :=
  { s with trace := s.trace ++ [c], outputOn := outAfter c s.outputOn }

/-- SMUController.start_output (src/main.py, lines 134-139): writes
OUTP ON and returns True when an instrument is connected. -/
def start_output (s : SMUState) : SMUState × Bool :=
  if s.instrument then (writeCmd s .outpOn, true) else (s, false)

/-- SMUController.stop_output (src/main.py, lines 141-146): writes
OUTP OFF and returns True when an instrument is connected. -/
def stop_output (s : SMUState) : SMUState × Bool :=
  if s.instrument then (writeCmd s .outpOff, true) else (s, false)

/-- SMUController.measure_point (src/main.py, lines 148-177): sets the
source voltage, queries MEAS:CURR?, and on a successful reading applies
the small-current rule to compute resistance.  The oracle reading is
the parsed outcome of the query: none means the transaction raised
(either write raising, or the query raising, or float() failing - the
failed attempt leaves at most the SOUR:VOLT entry in the trace, a
detail no property here depends on), in which case the except branch
returns (None, None). -/
def measure_point (s : SMUState) (voltage : ℚ) (reading : Option ℚ) :
    SMUState × Option (ℚ × Resistance) :=
  if !s.instrument then (s, none)
  else
    let s1 := writeCmd s (.sourVolt voltage)
    match reading with
    | none => (s1, none)
    | some current =>
      let s2 := writeCmd s1 .measCurr
      if |current| > SMALL_CURRENT_THRESHOLD then
        (s2, some (current, .finite (voltage / current)))
      else
        (s2, some (current, .inf))

/-- SMUController.abort_measurement (src/main.py, lines 238-241):
clears the running flag and turns the output off. -/
def abort_measurement (s : SMUState) : SMUState :=
  (stop_output { s with measurement_running := false }).1

/-- The current_range string argument of setup_measurement, abstracted:
either it equals AUTO case-insensitively, or float() parses it to a
value, or float() raises ValueError. -/
inductive CurrentRange where
  | auto
  | numeric (v : ℚ)
  | invalid
deriving DecidableEq, Repr

/-- The ordered command plan of SMUController.setup_measurement
(src/main.py, lines 90-127) for a given current_range, paired with the
boolean the function returns when every write succeeds: on an invalid
range the plan stops after the auto-range fallback write and the
function returns False (line 119). -/
def setupPlan (start_v stop_v current_limit : ℚ) :
    CurrentRange → List Cmd × Bool
  | .auto =>
    ([.routTermRear, .sourFuncVolt, .sourVoltRang (max |start_v| |stop_v|),
      .sourVoltIlim current_limit, .sensFuncCurr, .sensCurrRangAuto,
      .sensCurrNplc, .sourVoltReadOn], true)
  | .numeric v =>
    ([.routTermRear, .sourFuncVolt, .sourVoltRang (max |start_v| |stop_v|),
      .sourVoltIlim current_limit, .sensFuncCurr, .sensCurrRang v,
      .sensCurrNplc, .sourVoltReadOn], true)
  | .invalid =>
    ([.routTermRear, .sourFuncVolt, .sourVoltRang (max |start_v| |stop_v|),
      .sourVoltIlim current_limit, .sensFuncCurr, .sensCurrRangAuto], false)

/-- Execute a command plan in order; failOn says which issue attempts
(numbered from idx) raise.  Returns the state reached, the number of
the next issue attempt, and whether the whole plan succeeded; execution
stops at the first raising write. -/
def runPlan (failOn : ℕ → Bool) : List Cmd → ℕ → SMUState → SMUState × ℕ × Bool
  | [], idx, s => (s, idx, true)
  | c :: rest, idx, s =>
    if failOn idx then (s, idx + 1, false)
    else runPlan failOn rest (idx + 1) (writeCmd s c)

/-- Result of SMUController.setup_measurement: returned True, returned
False, or let an exception escape (possible only when the OUTP OFF
write inside the except handler itself raises). -/
inductive SetupOutcome where
  | ok
  | failed
  | raised
deriving DecidableEq, Repr

/-- SMUController.setup_measurement (src/main.py, lines 77-132): with
no instrument it returns False; otherwise it issues its command plan in
order, and on the first raising write the except handler writes
OUTP OFF (line 131) and returns False.  failOn is the transport-fault
oracle for this call's issue attempts. -/
def setup_measurement (failOn : ℕ → Bool) (s : SMUState)
    (start_v stop_v current_limit : ℚ) (current_range : CurrentRange) :
    SMUState × SetupOutcome :=
  if !s.instrument then (s, .failed)
  else
    let plan := setupPlan start_v stop_v current_limit current_range
    let r := runPlan failOn plan.1 0 s
    if r.2.2 then (r.1, if plan.2 then .ok else .failed)
    else if failOn r.2.1 then (r.1, .raised)
    else (writeCmd r.1 .outpOff, .failed)

/-- A progress-callback invocation, as delivered by perform_sweep:
(voltage, current, resistance, progress). -/
abbrev Event := ℚ × ℚ × Resistance × ℚ

/-- Accumulator of the loop in SMUController.perform_sweep: the
controller and instrument state together with the three result lists
and the list of callback invocations made so far. -/
structure SweepAcc where
  st : SMUState
  voltages : List ℚ
  currents : List ℚ
  resistances : List Resistance
  events : List Event
deriving DecidableEq, Repr

/-- One loop body of SMUController.perform_sweep (src/main.py, lines
210-230) past the running check: compute the step voltage, measure,
and on failure continue (touching no list and invoking no callback);
on success append to the three lists, sleep, and invoke the callback
with progress = 100 * (i + 1) / steps when one was provided. -/
def sweepStep (start_v vstep : ℚ) (steps : ℕ) (hasCallback : Bool)
    (readings : ℕ → Option ℚ) (i : ℕ) (acc : SweepAcc) : SweepAcc :=
  let voltage := start_v + (i : ℚ) * vstep
  let m := measure_point acc.st voltage (readings i)
  match m.2 with
  | none => { acc with st := m.1 }
  | some cr =>
    { st := m.1
      voltages := acc.voltages ++ [voltage]
      currents := acc.currents ++ [cr.1]
      resistances := acc.resistances ++ [cr.2]
      events := acc.events ++
        (if hasCallback then
          [(voltage, cr.1, cr.2, 100 * ((i : ℚ) + 1) / (steps : ℚ))]
        else []) }

/-- Value read by the check `if not self.measurement_running` at the
top of loop iteration i (src/main.py, line 207).  During the loop the
flag is written only by an external abort_measurement, which can only
clear it; abortAt = some k states that the clear is first observed at
the check of iteration k, abortAt = none that no abort is observed. -/
def runningCheck (abortAt : Option ℕ) (i : ℕ) : Bool :=
  match abortAt with
  | none => true
  | some k => decide (i < k)

/-- The for-loop of SMUController.perform_sweep over the listed step
indices: each iteration first re-reads the running flag and breaks if
an abort has been observed, else runs the loop body. -/
def sweepLoop (start_v vstep : ℚ) (steps : ℕ) (hasCallback : Bool)
    (readings : ℕ → Option ℚ) (abortAt : Option ℕ) :
    List ℕ → SweepAcc → SweepAcc
  | [], acc => acc
  | i :: rest, acc =>
    if runningCheck abortAt i then
      sweepLoop start_v vstep steps hasCallback readings abortAt rest
        (sweepStep start_v vstep steps hasCallback readings i acc)
    else acc

/-- Everything perform_sweep produces: the final controller state, the
returned triple of lists, and the callback invocations. -/
structure SweepOut where
  st : SMUState
  voltages : List ℚ
  currents : List ℚ
  resistances : List Resistance
  events : List Event
deriving DecidableEq, Repr

/-- Epilogue of perform_sweep (src/main.py, lines 232-236): turn the
output off and clear the running flag, then return the lists. -/
def sweepFinish (acc : SweepAcc) : SweepOut :=
  { st := { (stop_output acc.st).1 with measurement_running := false }
    voltages := acc.voltages
    currents := acc.currents
    resistances := acc.resistances
    events := acc.events }

/-- SMUController.perform_sweep (src/main.py, lines 179-236): compute
vstep = (stop_v - start_v) / (steps - 1), turn the output on, set the
running flag, run the loop over range steps, then turn the output off,
clear the flag and return.  delay_time only paces time.sleep and has no
effect on any state modelled here.  readings is the per-index
measurement oracle and abortAt the observed abort schedule. -/
def perform_sweep (s : SMUState) (start_v stop_v : ℚ) (steps : ℕ)
    (delay_time : ℚ) (hasCallback : Bool) (readings : ℕ → Option ℚ)
    (abortAt : Option ℕ) : SweepOut :=
  sweepFinish
    (sweepLoop start_v ((stop_v - start_v) / ((steps : ℚ) - 1)) steps
      hasCallback readings abortAt (List.range steps)
      { st := { (start_output s).1 with measurement_running := true }
        voltages := []
        currents := []
        resistances := []
        events := [] })

/-- SMUController.set_gpib_address (src/main.py, lines 255-315).  With
no instrument it fails; an out-of-range address fails before any
command is issued.  Otherwise the current address is read best-effort
(TSP query, then SCPI query; both failing is not an error), the new
address is written, and a TSP verification query runs: if that query
raises, the function still returns True; if it answers a value other
than the new address, the function returns False; a raising address
write falls to the outer except and returns False.  The oracles give
the parsed outcome of each query (none = raised or unparseable) and
whether the address write raised. -/
def set_gpib_address (s : SMUState) (new_address : ℤ)
    (tspCur scpiCur : Option ℤ) (writeOk : Bool) (tspVerify : Option ℤ) :
    SMUState × Bool :=
  if !s.instrument then (s, false)
  else if !(decide (0 ≤ new_address) && decide (new_address ≤ 30)) then
    (s, false)
  else
    let s1 :=
      match tspCur with
      | some _ => writeCmd s .queryGpibAddrTSP
      | none =>
        match scpiCur with
        | some _ => writeCmd s .queryGpibAddrSCPI
        | none => s
    if writeOk then
      let s2 := writeCmd s1 (.sysGpibAddr new_address)
      match tspVerify with
      | none => (s2, true)
      | some v => if v = new_address then (s2, true) else (s2, false)
    else (s1, false)

/-- Row set written by save_data_to_csv (src/main.py, lines 344-345):
one row per element of zip(voltages, currents, resistances). -/
def save_rows (voltages currents : List ℚ) (resistances : List Resistance) :
    List (ℚ × ℚ × Resistance) :=
  voltages.zip (currents.zip resistances)

/-! Derived shorthand used by the characterization lemmas; all of it is
definable straight from the loop above. -/

/-- Voltage applied at step index i (src/main.py, line 211). -/
def voltAt (start_v vstep : ℚ) (i : ℕ) : ℚ := start_v + (i : ℚ) * vstep

/-- Raw current recorded at a successfully measured index. -/
def currAt (readings : ℕ → Option ℚ) (i : ℕ) : ℚ := (readings i).getD 0

/-- Resistance computed by the small-current rule of measure_point. -/
def resistOf (v c : ℚ) : Resistance :=
  if |c| > SMALL_CURRENT_THRESHOLD then .finite (v / c) else .inf

/-- Whether the measurement transaction at index i succeeds. -/
def okIdx (readings : ℕ → Option ℚ) (i : ℕ) : Bool := (readings i).isSome

/-- Callback record delivered for a successfully measured index i. -/
def eventAt (start_v vstep : ℚ) (steps : ℕ) (readings : ℕ → Option ℚ)
    (i : ℕ) : Event :=
  (voltAt start_v vstep i, currAt readings i,
    resistOf (voltAt start_v vstep i) (currAt readings i),
    100 * ((i : ℚ) + 1) / (steps : ℚ))

/-- Number of loop iterations whose body runs: all of range steps, cut
at the first index whose running check observes the abort. -/
def effSteps (steps : ℕ) (abortAt : Option ℕ) : ℕ :=
  match abortAt with
  | none => steps
  | some k => min steps k

/-- The loop body folded over a list of step indices (what sweepLoop
computes when no abort cuts it short). -/
def sweepFold (start_v vstep : ℚ) (steps : ℕ) (hasCallback : Bool)
    (readings : ℕ → Option ℚ) (l : List ℕ) (acc : SweepAcc) : SweepAcc :=
  l.foldl (fun a i => sweepStep start_v vstep steps hasCallback readings i a) acc

theorem sweepFold_nil (start_v vstep : ℚ) (steps : ℕ) (hcb : Bool)
    (rd : ℕ → Option ℚ) (acc : SweepAcc) :
    sweepFold start_v vstep steps hcb rd [] acc = acc := rfl

theorem sweepFold_cons (start_v vstep : ℚ) (steps : ℕ) (hcb : Bool)
    (rd : ℕ → Option ℚ) (i : ℕ) (t : List ℕ) (acc : SweepAcc) :
    sweepFold start_v vstep steps hcb rd (i :: t) acc =
      sweepFold start_v vstep steps hcb rd t
        (sweepStep start_v vstep steps hcb rd i acc) := rfl

theorem sweepStep_not_connected (start_v vstep : ℚ) (steps : ℕ) (hcb : Bool)
    (rd : ℕ → Option ℚ) (i : ℕ) (acc : SweepAcc)
    (h : acc.st.instrument = false) :
    sweepStep start_v vstep steps hcb rd i acc = acc := by
  unfold sweepStep measure_point
  simp [h]

theorem sweepStep_st (start_v vstep : ℚ) (steps : ℕ) (hcb : Bool)
    (rd : ℕ → Option ℚ) (i : ℕ) (acc : SweepAcc) :
    (sweepStep start_v vstep steps hcb rd i acc).st.instrument =
        acc.st.instrument ∧
      (sweepStep start_v vstep steps hcb rd i acc).st.outputOn =
        acc.st.outputOn ∧
      (sweepStep start_v vstep steps hcb rd i acc).st.measurement_running =
        acc.st.measurement_running ∧
      (sweepStep start_v vstep steps hcb rd i acc).st.trace.filter
          Cmd.affectsOutput =
        acc.st.trace.filter Cmd.affectsOutput := by
  unfold sweepStep measure_point
  rcases hinst : acc.st.instrument with _ | _
  · simp [hinst]
  · rcases hr : rd i with _ | c
    · simp [hinst, hr, writeCmd, outAfter, Cmd.affectsOutput]
    · simp only [hinst, hr, Bool.not_true, Bool.false_eq_true, if_false]
      rcases lt_or_le SMALL_CURRENT_THRESHOLD |c| with hth | hth
      · rw [if_pos hth]
        simp [writeCmd, outAfter, Cmd.affectsOutput, hinst]
      · rw [if_neg (not_lt.2 hth)]
        simp [writeCmd, outAfter, Cmd.affectsOutput, hinst]

theorem sweepStep_fail (start_v vstep : ℚ) (steps : ℕ) (hcb : Bool)
    (rd : ℕ → Option ℚ) (i : ℕ) (acc : SweepAcc)
    (h : rd i = none) :
    (sweepStep start_v vstep steps hcb rd i acc).voltages = acc.voltages ∧
      (sweepStep start_v vstep steps hcb rd i acc).currents = acc.currents ∧
      (sweepStep start_v vstep steps hcb rd i acc).resistances =
        acc.resistances ∧
      (sweepStep start_v vstep steps hcb rd i acc).events = acc.events := by
  unfold sweepStep measure_point
  rcases hinst : acc.st.instrument <;> simp [hinst, h]

theorem sweepStep_succ (start_v vstep : ℚ) (steps : ℕ) (hcb : Bool)
    (rd : ℕ → Option ℚ) (i : ℕ) (acc : SweepAcc) (c : ℚ)
    (hinst : acc.st.instrument = true) (h : rd i = some c) :
    (sweepStep start_v vstep steps hcb rd i acc).voltages =
        acc.voltages ++ [voltAt start_v vstep i] ∧
      (sweepStep start_v vstep steps hcb rd i acc).currents =
        acc.currents ++ [c] ∧
      (sweepStep start_v vstep steps hcb rd i acc).resistances =
        acc.resistances ++ [resistOf (voltAt start_v vstep i) c] ∧
      (sweepStep start_v vstep steps hcb rd i acc).events =
        acc.events ++
          (if hcb then [eventAt start_v vstep steps rd i] else []) := by
  unfold sweepStep measure_point
  simp only [hinst, Bool.not_true, Bool.false_eq_true, if_false, h]
  unfold eventAt voltAt currAt resistOf
  rw [h]
  rcases lt_or_le SMALL_CURRENT_THRESHOLD |c| with hth | hth
  · simp only [if_pos hth]
    simp [hth]
  · simp only [if_neg (not_lt.2 hth)]
    simp [not_lt.2 hth]

theorem sweepFold_not_connected (start_v vstep : ℚ) (steps : ℕ) (hcb : Bool)
    (rd : ℕ → Option ℚ) (l : List ℕ) (acc : SweepAcc)
    (h : acc.st.instrument = false) :
    sweepFold start_v vstep steps hcb rd l acc = acc := by
  induction l generalizing acc with
  | nil => rfl
  | cons i t ih =>
    rw [sweepFold_cons, sweepStep_not_connected _ _ _ _ _ _ _ h]
    exact ih acc h

theorem sweepFold_st (start_v vstep : ℚ) (steps : ℕ) (hcb : Bool)
    (rd : ℕ → Option ℚ) (l : List ℕ) (acc : SweepAcc) :
    (sweepFold start_v vstep steps hcb rd l acc).st.instrument =
        acc.st.instrument ∧
      (sweepFold start_v vstep steps hcb rd l acc).st.outputOn =
        acc.st.outputOn ∧
      (sweepFold start_v vstep steps hcb rd l acc).st.measurement_running =
        acc.st.measurement_running ∧
      (sweepFold start_v vstep steps hcb rd l acc).st.trace.filter
          Cmd.affectsOutput =
        acc.st.trace.filter Cmd.affectsOutput := by
  induction l generalizing acc with
  | nil => exact ⟨rfl, rfl, rfl, rfl⟩
  | cons i t ih =>
    rw [sweepFold_cons]
    obtain ⟨h1, h2, h3, h4⟩ :=
      ih (sweepStep start_v vstep steps hcb rd i acc)
    obtain ⟨g1, g2, g3, g4⟩ := sweepStep_st start_v vstep steps hcb rd i acc
    exact ⟨h1.trans g1, h2.trans g2, h3.trans g3, h4.trans g4⟩

theorem sweepFold_rows (start_v vstep : ℚ) (steps : ℕ) (hcb : Bool)
    (rd : ℕ → Option ℚ) (l : List ℕ) (acc : SweepAcc)
    (h : acc.st.instrument = true) :
    (sweepFold start_v vstep steps hcb rd l acc).voltages =
        acc.voltages ++ (l.filter (okIdx rd)).map (voltAt start_v vstep) ∧
      (sweepFold start_v vstep steps hcb rd l acc).currents =
        acc.currents ++ (l.filter (okIdx rd)).map (currAt rd) ∧
      (sweepFold start_v vstep steps hcb rd l acc).resistances =
        acc.resistances ++
          (l.filter (okIdx rd)).map
            (fun i => resistOf (voltAt start_v vstep i) (currAt rd i)) ∧
      (sweepFold start_v vstep steps hcb rd l acc).events =
        acc.events ++
          (if hcb then
            (l.filter (okIdx rd)).map (eventAt start_v vstep steps rd)
          else []) := by
  induction l generalizing acc with
  | nil => simp [sweepFold_nil]
  | cons i t ih =>
    rw [sweepFold_cons]
    have hinst' :
        (sweepStep start_v vstep steps hcb rd i acc).st.instrument = true :=
      (sweepStep_st start_v vstep steps hcb rd i acc).1.trans h
    obtain ⟨h1, h2, h3, h4⟩ :=
      ih (sweepStep start_v vstep steps hcb rd i acc) hinst'
    rcases hr : rd i with _ | c
    · have hok : okIdx rd i = false := by simp [okIdx, hr]
      obtain ⟨g1, g2, g3, g4⟩ :=
        sweepStep_fail start_v vstep steps hcb rd i acc hr
      refine ⟨?_, ?_, ?_, ?_⟩ <;>
        simp only [h1, h2, h3, h4, g1, g2, g3, g4, List.filter_cons, hok,
          Bool.false_eq_true, if_false]
    · have hok : okIdx rd i = true := by simp [okIdx, hr]
      obtain ⟨g1, g2, g3, g4⟩ :=
        sweepStep_succ start_v vstep steps hcb rd i acc c h hr
      have hc : currAt rd i = c := by simp [currAt, hr]
      refine ⟨?_, ?_, ?_, ?_⟩ <;>
        simp only [h1, h2, h3, h4, g1, g2, g3, g4, List.filter_cons, hok,
          if_true, List.map_cons, List.append_assoc, List.singleton_append,
          hc]
      rcases hcb <;> simp

theorem sweepLoop_none_eq (start_v vstep : ℚ) (steps : ℕ) (hcb : Bool)
    (rd : ℕ → Option ℚ) (l : List ℕ) (acc : SweepAcc) :
    sweepLoop start_v vstep steps hcb rd none l acc =
      sweepFold start_v vstep steps hcb rd l acc := by
  induction l generalizing acc with
  | nil => rfl
  | cons i t ih =>
    rw [sweepFold_cons, ← ih]
    rfl

theorem sweepLoop_some_eq (start_v vstep : ℚ) (steps : ℕ) (hcb : Bool)
    (rd : ℕ → Option ℚ) (k : ℕ) :
    ∀ (n s : ℕ) (acc : SweepAcc),
      sweepLoop start_v vstep steps hcb rd (some k) (List.range' s n) acc =
        sweepFold start_v vstep steps hcb rd (List.range' s (min n (k - s)))
          acc := by
  intro n
  induction n with
  | zero => intro s acc; simp [sweepFold_nil, sweepLoop]
  | succ n ih =>
    intro s acc
    rw [List.range'_succ]
    by_cases hsk : s < k
    · have hck : runningCheck (some k) s = true := by
        simp [runningCheck, hsk]
      have hmin : min (n + 1) (k - s) = min n (k - (s + 1)) + 1 := by omega
      have hunfold : sweepLoop start_v vstep steps hcb rd (some k)
          (s :: List.range' (s + 1) n) acc =
          sweepLoop start_v vstep steps hcb rd (some k)
            (List.range' (s + 1) n)
            (sweepStep start_v vstep steps hcb rd s acc) := by
        simp only [sweepLoop, hck, if_true]
      rw [hmin, List.range'_succ, sweepFold_cons, hunfold]
      exact ih (s + 1) (sweepStep start_v vstep steps hcb rd s acc)
    · have hck : runningCheck (some k) s = false := by
        simp only [runningCheck, decide_eq_false_iff_not]
        omega
      have hmin : min (n + 1) (k - s) = 0 := by omega
      have hunfold : sweepLoop start_v vstep steps hcb rd (some k)
          (s :: List.range' (s + 1) n) acc = acc := by
        simp only [sweepLoop, hck, Bool.false_eq_true, if_false]
      rw [hmin, hunfold]
      simp [sweepFold_nil]

theorem sweepLoop_range_eq (start_v vstep : ℚ) (steps : ℕ) (hcb : Bool)
    (rd : ℕ → Option ℚ) (abortAt : Option ℕ) (acc : SweepAcc) :
    sweepLoop start_v vstep steps hcb rd abortAt (List.range steps) acc =
      sweepFold start_v vstep steps hcb rd
        (List.range (effSteps steps abortAt)) acc := by
  rcases abortAt with _ | k
  · exact sweepLoop_none_eq start_v vstep steps hcb rd (List.range steps) acc
  · rw [List.range_eq_range', List.range_eq_range',
      sweepLoop_some_eq start_v vstep steps hcb rd k steps 0 acc]
    simp [effSteps]

/-- Full characterization of the three result lists and the callback
invocations of perform_sweep when an instrument is connected: each is
the image of the step indices whose running check passed and whose
measurement succeeded. -/
theorem perform_sweep_rows (s : SMUState) (start_v stop_v : ℚ) (steps : ℕ)
    (delay_time : ℚ) (hcb : Bool) (rd : ℕ → Option ℚ) (abortAt : Option ℕ)
    (h : s.instrument = true) :
    (perform_sweep s start_v stop_v steps delay_time hcb rd
          abortAt).voltages =
        ((List.range (effSteps steps abortAt)).filter (okIdx rd)).map
          (voltAt start_v ((stop_v - start_v) / ((steps : ℚ) - 1))) ∧
      (perform_sweep s start_v stop_v steps delay_time hcb rd
          abortAt).currents =
        ((List.range (effSteps steps abortAt)).filter (okIdx rd)).map
          (currAt rd) ∧
      (perform_sweep s start_v stop_v steps delay_time hcb rd
          abortAt).resistances =
        ((List.range (effSteps steps abortAt)).filter (okIdx rd)).map
          (fun i =>
            resistOf
              (voltAt start_v ((stop_v - start_v) / ((steps : ℚ) - 1)) i)
              (currAt rd i)) ∧
      (perform_sweep s start_v stop_v steps delay_time hcb rd
          abortAt).events =
        (if hcb then
          ((List.range (effSteps steps abortAt)).filter (okIdx rd)).map
            (eventAt start_v ((stop_v - start_v) / ((steps : ℚ) - 1)) steps
              rd)
        else []) := by
  unfold perform_sweep
  rw [sweepLoop_range_eq]
  have hacc :
      (({ st := { (start_output s).1 with measurement_running := true },
          voltages := [], currents := [], resistances := [],
          events := [] } : SweepAcc)).st.instrument = true := by
    simp [start_output, writeCmd, h]
  obtain ⟨h1, h2, h3, h4⟩ :=
    sweepFold_rows start_v ((stop_v - start_v) / ((steps : ℚ) - 1)) steps hcb
      rd (List.range (effSteps steps abortAt)) _ hacc
  exact ⟨by simpa [sweepFinish] using h1, by simpa [sweepFinish] using h2,
    by simpa [sweepFinish] using h3, by simpa [sweepFinish] using h4⟩

theorem sweepFinish_fields (acc : SweepAcc) :
    (sweepFinish acc).st.instrument = acc.st.instrument ∧
      (sweepFinish acc).st.measurement_running = false ∧
      (acc.st.instrument = true →
        (sweepFinish acc).st.outputOn = false ∧
          (sweepFinish acc).st.trace = acc.st.trace ++ [.outpOff]) ∧
      (acc.st.instrument = false →
        (sweepFinish acc).st =
          { acc.st with measurement_running := false }) := by
  rcases h : acc.st.instrument <;>
    simp [sweepFinish, stop_output, writeCmd, outAfter, h]

/-- State facts about perform_sweep: the running flag is cleared, and
with a connected instrument the output is off on return and the
output-affecting commands this call issued are OUTP ON then OUTP OFF;
with no instrument the state is untouched apart from the flag. -/
theorem perform_sweep_st (s : SMUState) (start_v stop_v : ℚ) (steps : ℕ)
    (delay_time : ℚ) (hcb : Bool) (rd : ℕ → Option ℚ)
    (abortAt : Option ℕ) :
    (perform_sweep s start_v stop_v steps delay_time hcb rd
          abortAt).st.measurement_running = false ∧
      (perform_sweep s start_v stop_v steps delay_time hcb rd
          abortAt).st.instrument = s.instrument ∧
      (s.instrument = true →
        (perform_sweep s start_v stop_v steps delay_time hcb rd
            abortAt).st.outputOn = false ∧
          (perform_sweep s start_v stop_v steps delay_time hcb rd
              abortAt).st.trace.filter Cmd.affectsOutput =
            s.trace.filter Cmd.affectsOutput ++ [.outpOn, .outpOff]) ∧
      (s.instrument = false →
        (perform_sweep s start_v stop_v steps delay_time hcb rd
            abortAt).st =
          { s with measurement_running := false }) := by
  unfold perform_sweep
  rw [sweepLoop_range_eq]
  rcases hins : s.instrument with _ | _
  · have hstart : (start_output s).1 = s := by simp [start_output, hins]
    rw [hstart]
    have hfold :
        sweepFold start_v ((stop_v - start_v) / ((steps : ℚ) - 1)) steps hcb
            rd (List.range (effSteps steps abortAt))
            { st := { s with measurement_running := true },
              voltages := [], currents := [], resistances := [],
              events := [] } =
          { st := { s with measurement_running := true },
            voltages := [], currents := [], resistances := [],
            events := [] } := by
      apply sweepFold_not_connected
      simp [hins]
    rw [hfold]
    obtain ⟨q1, q2, _, qF⟩ :=
      sweepFinish_fields
        { st := { s with measurement_running := true },
          voltages := [], currents := [], resistances := [], events := [] }
    refine ⟨q2, by rw [q1]; exact hins, fun h => absurd h (by simp),
      fun _ => ?_⟩
    have hq := qF hins
    rw [hq]
    simp [hins]
  · have hstart : (start_output s).1 = writeCmd s .outpOn := by
      simp [start_output, hins]
    rw [hstart]
    obtain ⟨f1, f2, f3, f4⟩ :=
      sweepFold_st start_v ((stop_v - start_v) / ((steps : ℚ) - 1)) steps hcb
        rd (List.range (effSteps steps abortAt))
        { st := { writeCmd s .outpOn with measurement_running := true },
          voltages := [], currents := [], resistances := [], events := [] }
    have hAinstr :
        (sweepFold start_v ((stop_v - start_v) / ((steps : ℚ) - 1)) steps hcb
            rd (List.range (effSteps steps abortAt))
            { st := { writeCmd s .outpOn with measurement_running := true },
              voltages := [], currents := [], resistances := [],
              events := [] }).st.instrument = true := by
      rw [f1]; simp [writeCmd, hins]
    obtain ⟨q1, q2, qT, _⟩ :=
      sweepFinish_fields
        (sweepFold start_v ((stop_v - start_v) / ((steps : ℚ) - 1)) steps hcb
          rd (List.range (effSteps steps abortAt))
          { st := { writeCmd s .outpOn with measurement_running := true },
            voltages := [], currents := [], resistances := [], events := [] })
    obtain ⟨qOut, qTr⟩ := qT hAinstr
    refine ⟨q2, ?_, fun _ => ⟨qOut, ?_⟩,
      fun h => absurd h (by simp)⟩
    · rw [q1, hAinstr]
    · rw [qTr, List.filter_append, f4]
      simp [writeCmd, List.filter_append, Cmd.affectsOutput]

theorem outAfter_id (c : Cmd) (h : c.affectsOutput = false) (b : Bool) :
    outAfter c b = b := by
  cases c <;> simp_all [outAfter, Cmd.affectsOutput]

theorem runPlan_no_output (failOn : ℕ → Bool) (plan : List Cmd)
    (h : ∀ c ∈ plan, c.affectsOutput = false) :
    ∀ (idx : ℕ) (s : SMUState),
      (runPlan failOn plan idx s).1.outputOn = s.outputOn ∧
        (runPlan failOn plan idx s).1.instrument = s.instrument ∧
        (runPlan failOn plan idx s).1.trace.filter Cmd.affectsOutput =
          s.trace.filter Cmd.affectsOutput := by
  induction plan with
  | nil => intro idx s; exact ⟨rfl, rfl, rfl⟩
  | cons c rest ih =>
    intro idx s
    have hc : c.affectsOutput = false := h c (List.mem_cons_self c rest)
    have hrest : ∀ d ∈ rest, d.affectsOutput = false := fun d hd =>
      h d (List.mem_cons_of_mem c hd)
    unfold runPlan
    rcases hf : failOn idx
    · obtain ⟨i1, i2, i3⟩ := ih hrest (idx + 1) (writeCmd s c)
      simp only [Bool.false_eq_true, if_false]
      refine ⟨?_, ?_, ?_⟩
      · rw [i1]; simp [writeCmd, outAfter_id c hc]
      · rw [i2]; simp [writeCmd]
      · rw [i3]; simp [writeCmd, List.filter_append, hc]
    · simp

theorem setupPlan_all_no_output (start_v stop_v current_limit : ℚ)
    (cr : CurrentRange) :
    ∀ c ∈ (setupPlan start_v stop_v current_limit cr).1,
      c.affectsOutput = false := by
  cases cr <;>
    · intro c hc
      simp only [setupPlan, List.mem_cons, List.not_mem_nil, or_false] at hc
      rcases hc with rfl | rfl | rfl | rfl | rfl | rfl | rfl | rfl <;> rfl

/-- Behaviour of setup_measurement on any call that returns False: the
output state can only have been forced off (never on), and the only
output-affecting command the failure path may issue is a trailing
OUTP OFF (issued exactly on the exception path; the invalid-range
return path issues none). -/
theorem setup_failed_state (failOn : ℕ → Bool) (s : SMUState)
    (start_v stop_v current_limit : ℚ) (cr : CurrentRange) (s' : SMUState)
    (h : setup_measurement failOn s start_v stop_v current_limit cr =
      (s', .failed)) :
    (s.outputOn = false → s'.outputOn = false) ∧
      (s'.trace.filter Cmd.affectsOutput = s.trace.filter Cmd.affectsOutput ∨
        s'.trace.filter Cmd.affectsOutput =
          s.trace.filter Cmd.affectsOutput ++ [Cmd.outpOff]) := by
  unfold setup_measurement at h
  rcases hins : s.instrument with _ | _
  · rw [hins] at h
    simp only [Bool.not_false, if_true, Prod.mk.injEq] at h
    rw [← h.1]
    exact ⟨fun hb => hb, Or.inl rfl⟩
  · rw [hins] at h
    simp only [Bool.not_true, Bool.false_eq_true, if_false] at h
    obtain ⟨p1, p2, p3⟩ :=
      runPlan_no_output failOn
        (setupPlan start_v stop_v current_limit cr).1
        (setupPlan_all_no_output start_v stop_v current_limit cr) 0 s
    rcases hrun : (runPlan failOn
        (setupPlan start_v stop_v current_limit cr).1 0 s).2.2 with _ | _
    · rw [hrun] at h
      simp only [Bool.false_eq_true, if_false] at h
      rcases hfail : failOn (runPlan failOn
          (setupPlan start_v stop_v current_limit cr).1 0 s).2.1 with _ | _
      · rw [hfail] at h
        simp only [Bool.false_eq_true, if_false, Prod.mk.injEq] at h
        rw [← h.1]
        constructor
        · intro _
          simp [writeCmd, outAfter]
        · right
          simp [writeCmd, List.filter_append, Cmd.affectsOutput, p3]
      · rw [hfail] at h
        simp at h
    · rw [hrun] at h
      simp only [if_true] at h
      rcases hret : (setupPlan start_v stop_v current_limit cr).2 with _ | _
      · rw [hret] at h
        simp only [Bool.false_eq_true, if_false, Prod.mk.injEq] at h
        rw [← h.1]
        exact ⟨fun hb => p1.trans hb, Or.inl p3⟩
      · rw [hret] at h
        simp at h

/-- Commands that write the remote address. -/
def Cmd.isAddrWrite : Cmd → Bool
  | .sysGpibAddr _ => true
  | _ => false

theorem abort_measurement_fields (s : SMUState) :
    (abort_measurement s).measurement_running = false ∧
      (abort_measurement s).instrument = s.instrument ∧
      (abort_measurement s).trace =
        s.trace ++ (if s.instrument then [Cmd.outpOff] else []) ∧
      (abort_measurement s).outputOn =
        (if s.instrument then false else s.outputOn) := by
  rcases h : s.instrument <;>
    simp [abort_measurement, stop_output, writeCmd, outAfter, h]

theorem perform_sweep_not_connected (s : SMUState) (start_v stop_v : ℚ)
    (steps : ℕ) (delay_time : ℚ) (hcb : Bool) (rd : ℕ → Option ℚ)
    (abortAt : Option ℕ) (h : s.instrument = false) :
    (perform_sweep s start_v stop_v steps delay_time hcb rd
          abortAt).voltages = [] ∧
      (perform_sweep s start_v stop_v steps delay_time hcb rd
          abortAt).currents = [] ∧
      (perform_sweep s start_v stop_v steps delay_time hcb rd
          abortAt).resistances = [] ∧
      (perform_sweep s start_v stop_v steps delay_time hcb rd
          abortAt).events = [] := by
  unfold perform_sweep
  rw [sweepLoop_range_eq]
  have hstart : (start_output s).1 = s := by simp [start_output, h]
  rw [hstart]
  have hfold :
      sweepFold start_v ((stop_v - start_v) / ((steps : ℚ) - 1)) steps hcb
          rd (List.range (effSteps steps abortAt))
          { st := { s with measurement_running := true },
            voltages := [], currents := [], resistances := [],
            events := [] } =
        { st := { s with measurement_running := true },
          voltages := [], currents := [], resistances := [],
          events := [] } := by
    apply sweepFold_not_connected
    simp [h]
  rw [hfold]
  simp [sweepFinish]

/-- C1 counterexample: a configuration failure that does not force the
output off.  With the output energized at entry, an invalid current
range makes setup_measurement return False (the error is returned)
while issuing no output-affecting command at all - the failure path's
command trace has no OUTP OFF - and the output remains on.  This is
the invalid-range return at src/main.py line 119, which skips the
OUTP OFF of the exception handler. -/
theorem C1_counterexample :
    (setup_measurement (fun _ => false) ⟨true, false, true, []⟩ 0 1
          (1 / 10) CurrentRange.invalid).2 = SetupOutcome.failed ∧
      (setup_measurement (fun _ => false) ⟨true, false, true, []⟩ 0 1
          (1 / 10) CurrentRange.invalid).1.outputOn = true ∧
      (setup_measurement (fun _ => false) ⟨true, false, true, []⟩ 0 1
          (1 / 10) CurrentRange.invalid).1.trace.filter
          Cmd.affectsOutput = [] := by
  refine ⟨?_, ?_, ?_⟩ <;>
    simp [setup_measurement, setupPlan, runPlan, writeCmd, outAfter,
      Cmd.affectsOutput]

/-- C1 (amended): only the exception failure path of setup_measurement
forces the output off before returning False - on that path the output
is off afterwards unconditionally and the commands it issued end with
OUTP OFF; the not-connected and invalid-range failure paths return
False issuing no output-affecting command, leaving the output state
exactly as it was (off in an actual sweep run, where configuration
precedes energization).  After perform_sweep returns in any terminal
state - completion or abort - the output is off, the output-affecting
commands it issued being exactly OUTP ON then OUTP OFF. -/
theorem C1_output_off_per_failure_path :
    (∀ (failOn : ℕ → Bool) (s : SMUState)
        (start_v stop_v current_limit : ℚ) (cr : CurrentRange)
        (s' : SMUState),
      setup_measurement failOn s start_v stop_v current_limit cr =
          (s', .failed) →
        ((s.instrument = true ∧
            (runPlan failOn
              (setupPlan start_v stop_v current_limit cr).1 0 s).2.2 =
              false) →
          s'.outputOn = false ∧
            s'.trace.filter Cmd.affectsOutput =
              s.trace.filter Cmd.affectsOutput ++ [Cmd.outpOff]) ∧
          ((s.instrument = false ∨
              (runPlan failOn
                (setupPlan start_v stop_v current_limit cr).1 0 s).2.2 =
                true) →
            s'.outputOn = s.outputOn ∧
              s'.trace.filter Cmd.affectsOutput =
                s.trace.filter Cmd.affectsOutput)) ∧
      ∀ (s : SMUState) (start_v stop_v : ℚ) (steps : ℕ)
        (delay_time : ℚ) (hcb : Bool) (rd : ℕ → Option ℚ)
        (abortAt : Option ℕ),
        (s.instrument = true ∨ s.outputOn = false →
          (perform_sweep s start_v stop_v steps delay_time hcb rd
              abortAt).st.outputOn = false) ∧
          (s.instrument = true →
            (perform_sweep s start_v stop_v steps delay_time hcb rd
                abortAt).st.trace.filter Cmd.affectsOutput =
              s.trace.filter Cmd.affectsOutput ++
                [Cmd.outpOn, Cmd.outpOff]) := by
  constructor
  · intro failOn s start_v stop_v current_limit cr s' h
    unfold setup_measurement at h
    obtain ⟨p1, p2, p3⟩ :=
      runPlan_no_output failOn
        (setupPlan start_v stop_v current_limit cr).1
        (setupPlan_all_no_output start_v stop_v current_limit cr) 0 s
    rcases hins : s.instrument with _ | _
    · rw [hins] at h
      simp only [Bool.not_false, if_true, Prod.mk.injEq] at h
      constructor
      · rintro ⟨ht, -⟩
        exact absurd ht (by simp)
      · intro _
        rw [← h.1]
        exact ⟨rfl, rfl⟩
    · rw [hins] at h
      simp only [Bool.not_true, Bool.false_eq_true, if_false] at h
      rcases hrun : (runPlan failOn
          (setupPlan start_v stop_v current_limit cr).1 0 s).2.2 with _ | _
      · rw [hrun] at h
        simp only [Bool.false_eq_true, if_false] at h
        rcases hfail : failOn (runPlan failOn
            (setupPlan start_v stop_v current_limit cr).1 0 s).2.1
          with _ | _
        · rw [hfail] at h
          simp only [Bool.false_eq_true, if_false, Prod.mk.injEq] at h
          rw [← h.1]
          constructor
          · intro _
            constructor
            · simp [writeCmd, outAfter]
            · simp [writeCmd, List.filter_append, Cmd.affectsOutput, p3]
          · rintro (hf | ht)
            · exact absurd hf (by simp)
            · exact absurd ht (by simp)
        · rw [hfail] at h
          simp at h
      · rw [hrun] at h
        simp only [if_true] at h
        rcases hret : (setupPlan start_v stop_v current_limit cr).2
          with _ | _
        · rw [hret] at h
          simp only [Bool.false_eq_true, if_false, Prod.mk.injEq] at h
          rw [← h.1]
          constructor
          · rintro ⟨-, hf⟩
            exact absurd hf (by simp)
          · intro _
            exact ⟨p1, p3⟩
        · rw [hret] at h
          simp at h
  · intro s start_v stop_v steps delay_time hcb rd abortAt
    obtain ⟨p1, p2, p3, p4⟩ :=
      perform_sweep_st s start_v stop_v steps delay_time hcb rd abortAt
    constructor
    · intro h
      rcases hins : s.instrument with _ | _
      · rw [p4 hins]
        rcases h with h | h
        · rw [hins] at h; exact absurd h (by simp)
        · exact h
      · exact (p3 hins).1
    · intro hins
      exact (p3 hins).2

theorem C1_witness :
    ((setup_measurement (fun i => decide (i = 0)) ⟨true, false, true, []⟩
          0 1 (1 / 10) CurrentRange.auto).1.outputOn = false ∧
      (setup_measurement (fun i => decide (i = 0)) ⟨true, false, true, []⟩
          0 1 (1 / 10) CurrentRange.auto).1.trace.filter
          Cmd.affectsOutput =
        (⟨true, false, true, []⟩ : SMUState).trace.filter
            Cmd.affectsOutput ++ [Cmd.outpOff]) ∧
      ((setup_measurement (fun _ => false) ⟨true, false, true, []⟩ 0 1
          (1 / 10) CurrentRange.invalid).1.outputOn =
        (⟨true, false, true, []⟩ : SMUState).outputOn ∧
      (setup_measurement (fun _ => false) ⟨true, false, true, []⟩ 0 1
          (1 / 10) CurrentRange.invalid).1.trace.filter
          Cmd.affectsOutput =
        (⟨true, false, true, []⟩ : SMUState).trace.filter
          Cmd.affectsOutput) ∧
      (perform_sweep ⟨true, false, false, []⟩ 0 1 3 0 true
          (fun _ => some 1) none).st.trace.filter Cmd.affectsOutput =
        ([] : List Cmd).filter Cmd.affectsOutput ++
          [Cmd.outpOn, Cmd.outpOff] := by
  refine ⟨?_, ?_, ?_⟩
  · exact (C1_output_off_per_failure_path.1 (fun i => decide (i = 0))
      ⟨true, false, true, []⟩ 0 1 (1 / 10) CurrentRange.auto
      (setup_measurement (fun i => decide (i = 0)) ⟨true, false, true, []⟩
        0 1 (1 / 10) CurrentRange.auto).1 rfl).1 ⟨rfl, rfl⟩
  · exact (C1_output_off_per_failure_path.1 (fun _ => false)
      ⟨true, false, true, []⟩ 0 1 (1 / 10) CurrentRange.invalid
      (setup_measurement (fun _ => false) ⟨true, false, true, []⟩ 0 1
        (1 / 10) CurrentRange.invalid).1 rfl).2 (Or.inr rfl)
  · exact (C1_output_off_per_failure_path.2 ⟨true, false, false, []⟩
      0 1 3 0 true (fun _ => some 1) none).2 rfl

/-- C2 counterexample: with steps = 2 and the measurement at index 0
failing (index 1 succeeding), the loop reaches index 0 with no abort,
yet only one callback is delivered - the one for index 1 at 100% - and
none with the 50% value the claim requires for index 0: in the source,
continue on a failed point skips the progress callback. -/
theorem C2_counterexample :
    (perform_sweep ⟨true, false, false, []⟩ 0 1 2 0 true
          (fun i => if i = 0 then none else some 1) none).events =
        [(1, 1, Resistance.finite 1, 100)] ∧
      (perform_sweep ⟨true, false, false, []⟩ 0 1 2 0 true
          (fun i => if i = 0 then none else some 1) none).events.length ≠
        2 := by
  have hr :=
    (perform_sweep_rows ⟨true, false, false, []⟩ 0 1 2 0 true
      (fun i => if i = 0 then none else some 1) none rfl).2.2.2
  have hfilter :
      (List.range (effSteps 2 none)).filter
          (okIdx fun i => if i = 0 then none else some 1) = [1] := by
    rw [show List.range (effSteps 2 none) = [0, 1] from rfl]
    simp [okIdx]
  rw [hfilter] at hr
  simp only [if_true, List.map_cons, List.map_nil] at hr
  refine ⟨?_, ?_⟩
  · rw [hr]
    unfold eventAt voltAt currAt resistOf
    norm_num [SMALL_CURRENT_THRESHOLD]
  · rw [hr]
    simp

/-- C2 (amended): during a completed sweep with a callback provided,
the callback is invoked exactly for the indices whose measurement
succeeded - a failed index is skipped without a callback - and each
invocation carries percentDone = 100 * (index + 1) / stepCount computed
from the index position, so the percentage still accounts for skipped
indices. -/
theorem C2_progress_from_index_position (s : SMUState)
    (start_v stop_v delay_time : ℚ) (steps : ℕ) (rd : ℕ → Option ℚ)
    (h : s.instrument = true) :
    (perform_sweep s start_v stop_v steps delay_time true rd
        none).events =
      ((List.range steps).filter (okIdx rd)).map
        (eventAt start_v ((stop_v - start_v) / ((steps : ℚ) - 1)) steps
          rd) := by
  have hr :=
    (perform_sweep_rows s start_v stop_v steps delay_time true rd none
      h).2.2.2
  simpa [effSteps] using hr

theorem C2_witness :
    (perform_sweep ⟨true, false, false, []⟩ 0 1 2 0 true
        (fun i => if i = 0 then none else some 1) none).events =
      ((List.range 2).filter
          (okIdx fun i => if i = 0 then none else some 1)).map
        (eventAt 0 ((1 - 0) / ((2 : ℚ) - 1)) 2
          fun i => if i = 0 then none else some 1) :=
  C2_progress_from_index_position ⟨true, false, false, []⟩ 0 1 0 2
    (fun i => if i = 0 then none else some 1) rfl

/-- C3: on a successful raw reading c at applied voltage v, measure_point
records resistance v / c when the magnitude of c exceeds the 1e-12
threshold and +infinity when it is at or below the threshold (including
c = 0), and the measurement is total on successful readings - it fails
only when the reading itself fails, never from the division. -/
theorem C3_resistance_law (s : SMUState) (v c : ℚ)
    (h : s.instrument = true) :
    (SMALL_CURRENT_THRESHOLD < |c| →
        (measure_point s v (some c)).2 =
          some (c, Resistance.finite (v / c))) ∧
      (|c| ≤ SMALL_CURRENT_THRESHOLD →
        (measure_point s v (some c)).2 = some (c, Resistance.inf)) ∧
      ∀ reading : Option ℚ,
        ((measure_point s v reading).2).isSome = reading.isSome := by
  refine ⟨?_, ?_, ?_⟩
  · intro hth
    simp [measure_point, h, hth]
  · intro hth
    simp [measure_point, h, not_lt.2 hth]
  · intro reading
    rcases reading with _ | c'
    · simp [measure_point, h]
    · rcases lt_or_le SMALL_CURRENT_THRESHOLD |c'| with hth | hth
      · simp [measure_point, h, hth]
      · simp [measure_point, h, not_lt.2 hth]

theorem C3_witness :
    (SMALL_CURRENT_THRESHOLD < |(1 : ℚ)| ∧
        (measure_point ⟨true, false, false, []⟩ 2 (some 1)).2 =
          some (1, Resistance.finite (2 / 1))) ∧
      (|(0 : ℚ)| ≤ SMALL_CURRENT_THRESHOLD ∧
        (measure_point ⟨true, false, false, []⟩ 2 (some 0)).2 =
          some (0, Resistance.inf)) ∧
      ((measure_point ⟨true, false, false, []⟩ 2 none).2).isSome =
        (none : Option ℚ).isSome := by
  refine ⟨⟨by norm_num [SMALL_CURRENT_THRESHOLD], ?_⟩,
    ⟨by norm_num [SMALL_CURRENT_THRESHOLD], ?_⟩, ?_⟩
  · exact (C3_resistance_law ⟨true, false, false, []⟩ 2 1 rfl).1
      (by norm_num [SMALL_CURRENT_THRESHOLD])
  · exact (C3_resistance_law ⟨true, false, false, []⟩ 2 0 rfl).2.1
      (by norm_num [SMALL_CURRENT_THRESHOLD])
  · exact (C3_resistance_law ⟨true, false, false, []⟩ 2 1 rfl).2.2 none

/-- C4: a completed sweep (no abort observed) with stepCount N at least
2 has at most N rows; the row produced at index i has voltage
start + i * (stop - start) / (N - 1); and the indices producing rows
are the measurement-successful ones, a strictly increasing subsequence
of 0..N-1, so rows appear in step order. -/
theorem C4_completed_sweep_shape (s : SMUState)
    (start_v stop_v delay_time : ℚ) (steps : ℕ) (hcb : Bool)
    (rd : ℕ → Option ℚ) (hN : 2 ≤ steps) (h : s.instrument = true) :
    (perform_sweep s start_v stop_v steps delay_time hcb rd
          none).voltages.length ≤ steps ∧
      (perform_sweep s start_v stop_v steps delay_time hcb rd
          none).voltages =
        ((List.range steps).filter (okIdx rd)).map
          (fun i : ℕ =>
            start_v + (i : ℚ) * (stop_v - start_v) / ((steps : ℚ) - 1)) ∧
      List.Sublist ((List.range steps).filter (okIdx rd))
        (List.range steps) ∧
      List.Pairwise (· < ·) ((List.range steps).filter (okIdx rd)) := by
  have hrows :=
    (perform_sweep_rows s start_v stop_v steps delay_time hcb rd none h).1
  simp only [effSteps] at hrows
  refine ⟨?_, ?_, List.filter_sublist _,
    (List.pairwise_lt_range steps).sublist (List.filter_sublist _)⟩
  · rw [hrows]
    simp only [List.length_map]
    exact le_trans (List.length_filter_le _ _) (by simp)
  · rw [hrows]
    refine List.map_congr_left fun i _ => ?_
    unfold voltAt
    ring

theorem C4_witness :
    (2 ≤ 3 ∧
      (perform_sweep ⟨true, false, false, []⟩ 0 1 3 0 false
            (fun _ => some 1) none).voltages.length ≤ 3) ∧
      (perform_sweep ⟨true, false, false, []⟩ 0 1 3 0 false
          (fun _ => some 1) none).voltages =
        ((List.range 3).filter (okIdx fun _ => some 1)).map
          (fun i : ℕ => 0 + (i : ℚ) * (1 - 0) / ((3 : ℚ) - 1)) ∧
      List.Pairwise (· < ·)
        ((List.range 3).filter (okIdx fun _ => some 1)) := by
  have happ :=
    C4_completed_sweep_shape ⟨true, false, false, []⟩ 0 1 0 3 false
      (fun _ => some 1) (by norm_num) rfl
  exact ⟨⟨by norm_num, happ.1⟩, happ.2.1, happ.2.2.2⟩

/-- C5: a single failed point is skipped without aborting the sweep: in
the concrete scenario of the claim (N = 3, start = -1, stop = 1, only
the measurement at index 1 failing) the result holds exactly the rows
of index 0 (voltage -1) and index 2 (voltage 1), and the sweep
terminates normally with the running flag cleared. -/
theorem C5_single_point_failure_skipped (run outOn : Bool)
    (tr : List Cmd) (c0 c2 : ℚ) (rd : ℕ → Option ℚ)
    (delay_time : ℚ) (hcb : Bool) (h0 : rd 0 = some c0)
    (h1 : rd 1 = none) (h2 : rd 2 = some c2) :
    (perform_sweep ⟨true, run, outOn, tr⟩ (-1) 1 3 delay_time hcb rd
          none).voltages = [-1, 1] ∧
      (perform_sweep ⟨true, run, outOn, tr⟩ (-1) 1 3 delay_time hcb rd
          none).currents = [c0, c2] ∧
      (perform_sweep ⟨true, run, outOn, tr⟩ (-1) 1 3 delay_time hcb rd
          none).st.measurement_running = false := by
  obtain ⟨hv, hc, -, -⟩ :=
    perform_sweep_rows ⟨true, run, outOn, tr⟩ (-1) 1 3 delay_time hcb rd
      none rfl
  have hfilter :
      (List.range (effSteps 3 none)).filter (okIdx rd) = [0, 2] := by
    rw [show List.range (effSteps 3 none) = [0, 1, 2] from rfl]
    simp [okIdx, h0, h1, h2]
  rw [hfilter] at hv hc
  refine ⟨?_, ?_, (perform_sweep_st _ _ _ _ _ _ _ _).1⟩
  · rw [hv]
    unfold voltAt
    norm_num
  · rw [hc]
    simp [currAt, h0, h2]

theorem C5_witness :
    ((fun i => if i = 0 then some 5 else if i = 2 then some 7 else none :
        ℕ → Option ℚ) 0 = some 5) ∧
      (perform_sweep ⟨true, false, false, []⟩ (-1) 1 3 0 false
          (fun i => if i = 0 then some 5 else
            if i = 2 then some 7 else none) none).voltages = [-1, 1] ∧
      (perform_sweep ⟨true, false, false, []⟩ (-1) 1 3 0 false
          (fun i => if i = 0 then some 5 else
            if i = 2 then some 7 else none) none).currents = [5, 7] := by
  have happ :=
    C5_single_point_failure_skipped false false [] 5 7
      (fun i => if i = 0 then some 5 else if i = 2 then some 7 else none)
      0 false rfl rfl rfl
  exact ⟨rfl, happ.1, happ.2.1⟩

/-- C6: abort is cooperative and observed only at the top of an
iteration: with the abort first observed at the check of step k, the
result holds exactly the points measured at indices below k (and below
stepCount), unchanged and with their callbacks, and no later index is
measured; abort_measurement applied after perform_sweep has returned
leaves the running flag and the output state exactly as they were
(it only re-issues OUTP OFF), and the returned lists are pure values
the abort cannot touch. -/
theorem C6_abort_cooperative (s : SMUState)
    (start_v stop_v delay_time : ℚ) (steps k : ℕ) (hcb : Bool)
    (rd : ℕ → Option ℚ) (abortAt : Option ℕ)
    (h : s.instrument = true) :
    (perform_sweep s start_v stop_v steps delay_time hcb rd
          (some k)).voltages =
        ((List.range (min steps k)).filter (okIdx rd)).map
          (voltAt start_v ((stop_v - start_v) / ((steps : ℚ) - 1))) ∧
      (perform_sweep s start_v stop_v steps delay_time hcb rd
          (some k)).currents =
        ((List.range (min steps k)).filter (okIdx rd)).map (currAt rd) ∧
      (perform_sweep s start_v stop_v steps delay_time hcb rd
          (some k)).events =
        (if hcb then
          ((List.range (min steps k)).filter (okIdx rd)).map
            (eventAt start_v ((stop_v - start_v) / ((steps : ℚ) - 1))
              steps rd)
        else []) ∧
      (abort_measurement (perform_sweep s start_v stop_v steps delay_time
            hcb rd abortAt).st).measurement_running =
        (perform_sweep s start_v stop_v steps delay_time hcb rd
            abortAt).st.measurement_running ∧
      (abort_measurement (perform_sweep s start_v stop_v steps delay_time
            hcb rd abortAt).st).outputOn =
        (perform_sweep s start_v stop_v steps delay_time hcb rd
            abortAt).st.outputOn ∧
      (abort_measurement (perform_sweep s start_v stop_v steps delay_time
            hcb rd abortAt).st).trace =
        (perform_sweep s start_v stop_v steps delay_time hcb rd
            abortAt).st.trace ++ [Cmd.outpOff] := by
  obtain ⟨hv, hc, -, he⟩ :=
    perform_sweep_rows s start_v stop_v steps delay_time hcb rd (some k) h
  simp only [effSteps] at hv hc he
  obtain ⟨p1, p2, p3, -⟩ :=
    perform_sweep_st s start_v stop_v steps delay_time hcb rd abortAt
  obtain ⟨a1, -, a3, a4⟩ :=
    abort_measurement_fields
      (perform_sweep s start_v stop_v steps delay_time hcb rd abortAt).st
  have hinst :
      (perform_sweep s start_v stop_v steps delay_time hcb rd
          abortAt).st.instrument = true := p2.trans h
  refine ⟨hv, hc, he, ?_, ?_, ?_⟩
  · rw [a1, p1]
  · rw [a4, hinst, if_pos rfl, (p3 h).1]
  · rw [a3, hinst, if_pos rfl]

theorem C6_witness :
    (perform_sweep ⟨true, false, false, []⟩ 0 1 3 0 false
          (fun _ => some 1) (some 1)).voltages =
        ((List.range (min 3 1)).filter (okIdx fun _ => some 1)).map
          (voltAt 0 ((1 - 0) / ((3 : ℚ) - 1))) ∧
      (abort_measurement (perform_sweep ⟨true, false, false, []⟩ 0 1 3 0
            false (fun _ => some 1) none).st).outputOn =
        (perform_sweep ⟨true, false, false, []⟩ 0 1 3 0 false
            (fun _ => some 1) none).st.outputOn := by
  have happ :=
    C6_abort_cooperative ⟨true, false, false, []⟩ 0 1 0 3 1 false
      (fun _ => some 1) none rfl
  exact ⟨happ.1, happ.2.2.2.2.1⟩

/-- C7 counterexample: setup_measurement returns the same plain False
for a non-numeric fixed range as for a generic configuration failure
(here: the first write raising), so the caller cannot distinguish an
invalid-range error from a generic one - the source returns bool, not a
distinct error value. -/
theorem C7_counterexample :
    (setup_measurement (fun _ => false) ⟨true, false, false, []⟩ 0 1
          (1 / 10) CurrentRange.invalid).2 = SetupOutcome.failed ∧
      (setup_measurement (fun i => decide (i = 0))
          ⟨true, false, false, []⟩ 0 1 (1 / 10) CurrentRange.auto).2 =
        SetupOutcome.failed := by
  constructor
  · simp [setup_measurement, setupPlan, runPlan]
  · simp [setup_measurement, setupPlan, runPlan]

/-- C7 (amended): on a non-numeric fixed range, setup_measurement still
enables auto-range as a fallback (SENS:CURR:RANG:AUTO ON is the last
command it issues) and reports failure so the caller must not proceed
to sweep, but the failure value it returns is the same False as a
generic configuration error - the caller cannot distinguish the two. -/
theorem C7_invalid_range_failure_not_distinct (s : SMUState)
    (start_v stop_v current_limit : ℚ) (h : s.instrument = true) :
    setup_measurement (fun _ => false) s start_v stop_v current_limit
        CurrentRange.invalid =
      ({ s with trace := s.trace ++
          [.routTermRear, .sourFuncVolt,
           .sourVoltRang (max |start_v| |stop_v|),
           .sourVoltIlim current_limit, .sensFuncCurr,
           .sensCurrRangAuto] }, .failed) ∧
      (setup_measurement (fun _ => false) s start_v stop_v current_limit
          CurrentRange.invalid).2 =
        (setup_measurement (fun i => decide (i = 0)) s start_v stop_v
          current_limit CurrentRange.auto).2 := by
  constructor
  · simp [setup_measurement, setupPlan, runPlan, writeCmd, outAfter, h]
  · simp [setup_measurement, setupPlan, runPlan, h]

theorem C7_witness :
    (setup_measurement (fun _ => false) ⟨true, false, false, []⟩ 0 1
          (1 / 10) CurrentRange.invalid).2 =
      (setup_measurement (fun i => decide (i = 0))
          ⟨true, false, false, []⟩ 0 1 (1 / 10) CurrentRange.auto).2 :=
  (C7_invalid_range_failure_not_distinct ⟨true, false, false, []⟩ 0 1
    (1 / 10) rfl).2

/-- C8: an out-of-range requested address (below 0 or above 30) makes
set_gpib_address fail locally: it returns failure with the state - in
particular the issued-command trace - completely unchanged, so no
command reaches the instrument. -/
theorem C8_out_of_range_address_rejected_locally (s : SMUState) (a : ℤ)
    (tspCur scpiCur : Option ℤ) (writeOk : Bool) (tspVerify : Option ℤ)
    (h : a < 0 ∨ 30 < a) :
    set_gpib_address s a tspCur scpiCur writeOk tspVerify = (s, false) := by
  have hcond : (decide (0 ≤ a) && decide (a ≤ 30)) = false := by
    rcases h with h | h <;> simp <;> omega
  unfold set_gpib_address
  rcases hins : s.instrument <;> simp [hins, hcond]

theorem C8_witness :
    set_gpib_address ⟨true, false, false, []⟩ 31 none none true none =
        (⟨true, false, false, []⟩, false) ∧
      set_gpib_address ⟨true, false, false, []⟩ (-1) none none true none =
        (⟨true, false, false, []⟩, false) :=
  ⟨C8_out_of_range_address_rejected_locally ⟨true, false, false, []⟩ 31
      none none true none (Or.inr (by decide)),
    C8_out_of_range_address_rejected_locally ⟨true, false, false, []⟩ (-1)
      none none true none (Or.inl (by decide))⟩

/-- C9: for an in-range address, when the address write succeeds but
the verification query raises, set_gpib_address reports overall success
and the write stands: exactly one address-write command (the new
address) was issued and nothing after it rewrites the address. -/
theorem C9_unverified_write_reported_success (s : SMUState) (a : ℤ)
    (tspCur scpiCur : Option ℤ) (h : s.instrument = true) (h0 : 0 ≤ a)
    (h30 : a ≤ 30) :
    (set_gpib_address s a tspCur scpiCur true none).2 = true ∧
      (set_gpib_address s a tspCur scpiCur true none).1.trace.filter
          Cmd.isAddrWrite =
        s.trace.filter Cmd.isAddrWrite ++ [Cmd.sysGpibAddr a] := by
  have hcond : (decide (0 ≤ a) && decide (a ≤ 30)) = true := by
    simp [h0, h30]
  unfold set_gpib_address
  rcases tspCur with _ | v
  · rcases scpiCur with _ | w <;>
      simp [h, hcond, writeCmd, List.filter_append, Cmd.isAddrWrite]
  · simp [h, hcond, writeCmd, List.filter_append, Cmd.isAddrWrite]

theorem C9_witness :
    (set_gpib_address ⟨true, false, false, []⟩ 7 none none true
          none).2 = true ∧
      (set_gpib_address ⟨true, false, false, []⟩ 7 none none true
          none).1.trace.filter Cmd.isAddrWrite =
        ([] : List Cmd).filter Cmd.isAddrWrite ++ [Cmd.sysGpibAddr 7] :=
  C9_unverified_write_reported_success ⟨true, false, false, []⟩ 7 none
    none rfl (by decide) (by decide)

theorem sweepStep_lengths (start_v vstep : ℚ) (steps : ℕ) (hcb : Bool)
    (rd : ℕ → Option ℚ) (i : ℕ) (acc : SweepAcc) :
    ((sweepStep start_v vstep steps hcb rd i acc).voltages.length =
          acc.voltages.length ∧
        (sweepStep start_v vstep steps hcb rd i acc).currents.length =
          acc.currents.length ∧
        (sweepStep start_v vstep steps hcb rd i acc).resistances.length =
          acc.resistances.length) ∨
      ((sweepStep start_v vstep steps hcb rd i acc).voltages.length =
          acc.voltages.length + 1 ∧
        (sweepStep start_v vstep steps hcb rd i acc).currents.length =
          acc.currents.length + 1 ∧
        (sweepStep start_v vstep steps hcb rd i acc).resistances.length =
          acc.resistances.length + 1) := by
  rcases hinst : acc.st.instrument with _ | _
  · left
    rw [sweepStep_not_connected start_v vstep steps hcb rd i acc hinst]
    exact ⟨rfl, rfl, rfl⟩
  · rcases hr : rd i with _ | c
    · left
      obtain ⟨g1, g2, g3, -⟩ :=
        sweepStep_fail start_v vstep steps hcb rd i acc hr
      rw [g1, g2, g3]
      exact ⟨rfl, rfl, rfl⟩
    · right
      obtain ⟨g1, g2, g3, -⟩ :=
        sweepStep_succ start_v vstep steps hcb rd i acc c hinst hr
      rw [g1, g2, g3]
      simp

theorem sweepFold_lengths_invariant (start_v vstep : ℚ) (steps : ℕ)
    (hcb : Bool) (rd : ℕ → Option ℚ) (l : List ℕ) (acc : SweepAcc)
    (h1 : acc.currents.length = acc.voltages.length)
    (h2 : acc.resistances.length = acc.voltages.length) :
    (sweepFold start_v vstep steps hcb rd l acc).currents.length =
        (sweepFold start_v vstep steps hcb rd l acc).voltages.length ∧
      (sweepFold start_v vstep steps hcb rd l acc).resistances.length =
        (sweepFold start_v vstep steps hcb rd l acc).voltages.length := by
  induction l generalizing acc with
  | nil => exact ⟨h1, h2⟩
  | cons i t ih =>
    rw [sweepFold_cons]
    rcases sweepStep_lengths start_v vstep steps hcb rd i acc with
      ⟨g1, g2, g3⟩ | ⟨g1, g2, g3⟩ <;>
      exact ih _ (by omega) (by omega)

/-- C10: the three returned lists always have equal length; every
successful measurement appends exactly one element to each and a failed
measurement appends to none, so the invariant holds at every
intermediate loop state, and the row set written by the CSV writer
(one row per zipped triple) has exactly one complete measured point per
row. -/
theorem C10_result_lists_aligned :
    (∀ (s : SMUState) (start_v stop_v delay_time : ℚ) (steps : ℕ)
        (hcb : Bool) (rd : ℕ → Option ℚ) (abortAt : Option ℕ),
      (perform_sweep s start_v stop_v steps delay_time hcb rd
            abortAt).currents.length =
          (perform_sweep s start_v stop_v steps delay_time hcb rd
            abortAt).voltages.length ∧
        (perform_sweep s start_v stop_v steps delay_time hcb rd
            abortAt).resistances.length =
          (perform_sweep s start_v stop_v steps delay_time hcb rd
            abortAt).voltages.length) ∧
      (∀ (start_v vstep : ℚ) (steps : ℕ) (hcb : Bool)
          (rd : ℕ → Option ℚ) (i : ℕ) (acc : SweepAcc),
        acc.st.instrument = true →
          (rd i = none →
            (sweepStep start_v vstep steps hcb rd i acc).voltages =
                acc.voltages ∧
              (sweepStep start_v vstep steps hcb rd i acc).currents =
                acc.currents ∧
              (sweepStep start_v vstep steps hcb rd i acc).resistances =
                acc.resistances) ∧
          ∀ c : ℚ, rd i = some c →
            (sweepStep start_v vstep steps hcb rd i acc).voltages.length =
                acc.voltages.length + 1 ∧
              (sweepStep start_v vstep steps hcb rd i
                  acc).currents.length = acc.currents.length + 1 ∧
              (sweepStep start_v vstep steps hcb rd i
                  acc).resistances.length =
                acc.resistances.length + 1) ∧
      (∀ (start_v vstep : ℚ) (steps : ℕ) (hcb : Bool)
          (rd : ℕ → Option ℚ) (l : List ℕ) (acc : SweepAcc),
        acc.currents.length = acc.voltages.length →
          acc.resistances.length = acc.voltages.length →
          (sweepFold start_v vstep steps hcb rd l acc).currents.length =
              (sweepFold start_v vstep steps hcb rd l
                acc).voltages.length ∧
            (sweepFold start_v vstep steps hcb rd l
                acc).resistances.length =
              (sweepFold start_v vstep steps hcb rd l
                acc).voltages.length) ∧
      ∀ (vs cs : List ℚ) (rs : List Resistance),
        cs.length = vs.length → rs.length = vs.length →
          (save_rows vs cs rs).length = vs.length := by
  refine ⟨?_, ?_, ?_, ?_⟩
  · intro s start_v stop_v delay_time steps hcb rd abortAt
    rcases hins : s.instrument with _ | _
    · obtain ⟨hv, hc, hr, -⟩ :=
        perform_sweep_not_connected s start_v stop_v steps delay_time hcb
          rd abortAt hins
      exact ⟨by simp [hc, hv], by simp [hr, hv]⟩
    · obtain ⟨hv, hc, hr, -⟩ :=
        perform_sweep_rows s start_v stop_v steps delay_time hcb rd
          abortAt hins
      constructor
      · rw [hv, hc]
        simp
      · rw [hv, hr]
        simp
  · intro start_v vstep steps hcb rd i acc hinst
    constructor
    · intro hr
      obtain ⟨g1, g2, g3, -⟩ :=
        sweepStep_fail start_v vstep steps hcb rd i acc hr
      exact ⟨g1, g2, g3⟩
    · intro c hr
      obtain ⟨g1, g2, g3, -⟩ :=
        sweepStep_succ start_v vstep steps hcb rd i acc c hinst hr
      rw [g1, g2, g3]
      simp
  · exact sweepFold_lengths_invariant
  · intro vs cs rs hc hr
    unfold save_rows
    rw [List.length_zip, List.length_zip, hc, hr]
    omega

theorem C10_witness :
    ((perform_sweep ⟨true, false, false, []⟩ 0 1 2 0 false
          (fun _ => some 1) none).currents.length =
        (perform_sweep ⟨true, false, false, []⟩ 0 1 2 0 false
          (fun _ => some 1) none).voltages.length) ∧
      ((sweepStep 0 1 2 false (fun _ => (none : Option ℚ)) 0
            ⟨⟨true, false, false, []⟩, [], [], [], []⟩).voltages =
          (⟨⟨true, false, false, []⟩, [], [], [], []⟩ :
            SweepAcc).voltages) ∧
      (save_rows [1] [2] [Resistance.inf]).length = 1 := by
  refine ⟨?_, ?_, ?_⟩
  · exact (C10_result_lists_aligned.1 ⟨true, false, false, []⟩ 0 1 0 2
      false (fun _ => some 1) none).1
  · exact ((C10_result_lists_aligned.2.1 0 1 2 false (fun _ => none) 0
      ⟨⟨true, false, false, []⟩, [], [], [], []⟩ rfl).1 rfl).1
  · exact C10_result_lists_aligned.2.2.2 [1] [2] [Resistance.inf] rfl rfl

end IVSweep
